import Mathlib

/-!
# Real-Time Analytics Dashboard — verification of the server core

Shallow embedding of the ingestion-to-broadcast pipeline of
`src/index.js` (Node/Express/ws server): event validation, the in-memory
rolling-window aggregator, serialization of buckets, the REST `/ingest`
endpoint, bearer-token authentication on both transports, and the
persistence adapter's idempotent raw insert and aggregate upsert.

Conventions of the embedding:
* Wall-clock instants are `Nat` milliseconds.
* JS `Map`s keyed by bucket start are embedded as `Nat → Option Entry`
  (point updates only; the source never iterates them outside the janitor).
* A JS `Set` of user ids is an insertion-ordered duplicate-free
  `List String`; a JS `Map` from route to count is an insertion-ordered
  association `List (String × Nat)` — both match the source's iteration
  order semantics.
* Fallible persistence calls are driven by explicit fault flags; an
  exception that propagates out of a handler is an `Option`/outcome value.
-/

namespace RTAD

/-- A parsed event record (`src/index.js` event shape). `metadata` is an
opaque object the core never interprets; it is omitted from the embedding.
Fields that Joi would reject for being absent or of the wrong type are
represented by values that fail the same per-field rule (empty string,
negative `ts`), since both are dropped identically by validation. -/
structure Event where
  eventId : String
  ts : Int
  userId : String
  sessionId : String
  route : String
  action : String
  deriving Repr, DecidableEq

/-- Hex digit test used by the UUID format check. -/
def isHexChar (c : Char) : Bool :=
  c.isDigit || (decide ('a' ≤ c) && decide (c ≤ 'f')) || (decide ('A' ≤ c) && decide (c ≤ 'F'))

/-- Canonical UUIDv4 format: 36 chars, dashes at positions 8/13/18/23,
version nibble `4` at position 14, variant nibble in 8/9/a/b at 19, hex
elsewhere. Embeds `Joi.string().guid(\x7b version: 'uuidv4' \x7d)` in
`eventSchema` (Joi additionally tolerates brace/bracket-wrapped forms,
irrelevant to the claims below). -/
def isUuidV4 (s : String) : Bool :=
  let cs := s.data
  cs.length == 36 &&
  (List.range 36).all (fun i =>
    let c := cs.getD i ' '
    if i == 8 || i == 13 || i == 18 || i == 23 then c == '-'
    else if i == 14 then c == '4'
    else if i == 19 then c == '8' || c == '9' || c == 'a' || c == 'b' || c == 'A' || c == 'B'
    else isHexChar c)

/-- `eventSchema.validate` outcome for one record (`src/index.js` lines
57–65): `eventId` must be a UUIDv4 string; `ts` a non-negative integer;
`userId` a string, empty allowed; `sessionId`, `route`, `action` non-empty
strings (Joi strings reject the empty string unless `.allow('')`). -/
def validEvent (e : Event) : Bool :=
  isUuidV4 e.eventId && decide (0 ≤ e.ts) &&
  e.sessionId ≠ "" && e.route ≠ "" && e.action ≠ ""

/-- `WINDOW_SIZES = [1, 5, 60]` (seconds). -/
def WINDOW_SIZES : List Nat := [1, 5, 60]

/-- `getBucketStart(tsMs, windowSec)`: floor to the window boundary.
`Nat` division is the floor of `Math.floor(tsMs / bucketMs)`. -/
def getBucketStart (tsMs : Nat) (windowSec : Nat) : Nat :=
  tsMs / (windowSec * 1000) * (windowSec * 1000)

/-- One in-memory aggregation cell (the object literal
`\x7b count: 0, uniques: new Set(), routes: new Map(), errors: 0 \x7d`). -/
structure Entry where
  count : Nat
  uniques : List String
  routes : List (String × Nat)
  errors : Nat
  deriving Repr, DecidableEq

def emptyEntry : Entry := ⟨0, [], [], 0⟩

/-- JS `Set.prototype.add`: append if not already present. -/
def setAdd (u : String) (l : List String) : List String :=
  if u ∈ l then l else l ++ [u]

/-- `entry.routes.set(r, (entry.routes.get(r) || 0) + 1)`: bump the count
of `r` in place, or append `(r, 1)` preserving Map insertion order. -/
def bumpRoute (r : String) : List (String × Nat) → List (String × Nat)
  | [] => [(r, 1)]
  | (s, n) :: rest => if s = r then (s, n + 1) :: rest else (s, n) :: bumpRoute r rest

/-- The per-event body of the inner loop in `handleEvents` (lines 248–254):
increment `count`; add a truthy (non-empty) `userId` to `uniques`; bump the
route tally; increment `errors` when `action === 'error'`. -/
def applyEvent (en : Entry) (ev : Event) : Entry :=
  { count := en.count + 1
    uniques := if ev.userId ≠ "" then setAdd ev.userId en.uniques else en.uniques
    routes := bumpRoute ev.route en.routes
    errors := if ev.action = "error" then en.errors + 1 else en.errors }

/-- Stable insertion of a route pair into a list sorted by count
descending: the new element goes before the first strictly-smaller count
and after every element with an equal or larger count. -/
def insertByCount (x : String × Nat) : List (String × Nat) → List (String × Nat)
  | [] => [x]
  | y :: ys => if y.2 ≤ x.2 then x :: y :: ys else y :: insertByCount x ys

/-- Stable sort by count descending, embedding the ES2019+ stable
`Array.prototype.sort((a,b) => b[1]-a[1])` used by `serializeEntry`. -/
def sortRoutesDesc : List (String × Nat) → List (String × Nat)
  | [] => []
  | x :: xs => insertByCount x (sortRoutesDesc xs)

/-- Serialized bucket shape (`serializeEntry`, lines 223–230). -/
structure SEntry where
  count : Nat
  uniques : Nat
  routes : List (String × Nat)
  errors : Nat
  deriving Repr, DecidableEq

/-- `serializeEntry`: counts, `uniques.size`, top-10 routes by count
descending (stable), errors. -/
def serializeEntry (e : Entry) : SEntry :=
  { count := e.count
    uniques := e.uniques.length
    routes := (sortRoutesDesc e.routes).take 10
    errors := e.errors }

/-- One window map: bucket start → entry (a JS `Map` under point access). -/
def BucketMap : Type := Nat → Option Entry

/-- All three window maps: window seconds → bucket map (`memoryWindows`). -/
def Windows : Type := Nat → BucketMap

def emptyWindows : Windows := fun _ _ => none

/-- The memory-update half of one iteration of the `for (const w of
WINDOW_SIZES)` loop in `handleEvents` (lines 243–255): fetch or create the
bucket at `getBucketStart(now, w)`, fold the batch into it, store it back.
Returns the new map and the updated entry (whose serialization becomes the
window's delta). -/
def memUpdateWindow (now : Nat) (events : List Event) (w : Nat) (m : BucketMap) :
    BucketMap × Entry :=
  let bs := getBucketStart now w
  let entry := (m bs).getD emptyEntry
  let entry2 := events.foldl applyEvent entry
  (fun k => if k = bs then some entry2 else m k, entry2)

/-! ## Persistence adapter -/

/-- One document of the `aggregates` collection:
`\x7b window, bucketStart, count, errors, createdAt \x7d`. -/
structure AggDoc where
  window : Nat
  bucketStart : Nat
  count : Nat
  errors : Nat
  createdAt : Nat
  deriving Repr, DecidableEq

/-- `eventsCol.insertMany(events, \x7b ordered: false \x7d)` against the
collection bearing the unique `eventId` index (`ensureIndexes`, line 41).
Unordered insert under a unique index: every record whose `eventId` is not
yet present is inserted; duplicates raise a write error that the caller's
`catch` swallows, leaving the rest of the batch inserted. The collection is
a document list in insertion order. -/
def insertManyUnique (col : List Event) (evs : List Event) : List Event :=
  evs.foldl (fun c e => if c.any (fun d => d.eventId = e.eventId) then c else c ++ [e]) col

/-- `aggCol.updateOne(\x7b window, bucketStart \x7d, \x7b $set, $inc, $setOnInsert \x7d,
\x7b upsert: true \x7d)` (lines 257–261): increment `count` by the batch size
and `errors` by the number of error-action events; on first insert also set
`createdAt` from the bucket start. -/
def aggUpsert (docs : List AggDoc) (w bucketStart cnt errs : Nat) : List AggDoc :=
  if docs.any (fun d => d.window = w ∧ d.bucketStart = bucketStart) then
    docs.map (fun d =>
      if d.window = w ∧ d.bucketStart = bucketStart then
        { d with count := d.count + cnt, errors := d.errors + errs }
      else d)
  else
    docs ++ [⟨w, bucketStart, cnt, errs, bucketStart⟩]

/-! ## handleEvents and the /ingest endpoint -/

/-- Process-wide mutable state touched by ingestion. -/
structure ServerState where
  windows : Windows
  rawEvents : List Event
  aggDocs : List AggDoc

def initialState : ServerState :=
  { windows := emptyWindows, rawEvents := [], aggDocs := [] }

/-- How a `handleEvents` call ended. `earlyReturn`: the batch was empty and
the function returned before touching anything. `thrown`: an aggregate
`updateOne` rejected; the exception propagates to the caller and line 263's
broadcast is never reached. `broadcasted`: the function ran to completion
and broadcast the per-window deltas to topic `dashboard:global`. -/
inductive HEOutcome where
  | earlyReturn
  | thrown
  | broadcasted (deltas : List (String × SEntry))
  deriving Repr, DecidableEq

/-- The `for (const w of WINDOW_SIZES)` loop of `handleEvents`
(lines 243–262) with a fault flag per window for the awaited
`aggCol.updateOne`. The in-memory update and the delta computation precede
the persistence call, so on a fault the memory for that window is already
updated but the loop aborts: remaining windows are untouched and the
accumulated deltas are discarded (never broadcast). -/
def runWindows (updFail : Nat → Bool) (now : Nat) (events : List Event) :
    List Nat → Windows → List AggDoc → List (String × SEntry) →
    Windows × List AggDoc × Option (List (String × SEntry))
  | [], wnd, agg, acc => (wnd, agg, some acc)
  | w :: rest, wnd, agg, acc =>
      let bs := getBucketStart now w
      let upd := memUpdateWindow now events w (wnd w)
      let wnd2 : Windows := fun w2 => if w2 = w then upd.1 else wnd w2
      let delta := serializeEntry upd.2
      if updFail w then (wnd2, agg, none)
      else
        let errs := (events.filter (fun e => e.action = "error")).length
        runWindows updFail now events rest wnd2
          (aggUpsert agg w bs events.length errs) (acc ++ [(toString w ++ "s", delta)])

/-- `handleEvents(events)` (lines 232–264) with fault injection.
`insertFail` makes `insertMany` reject for a non-duplicate reason; the
surrounding `try/catch` swallows it (we model the failed call as writing
nothing). `updFail w` makes the `updateOne` for window `w` reject; that
await is *not* guarded, so the rejection propagates. On completion the
deltas are broadcast (line 263). Receipt time `now` stands for the
`Date.now()` of line 241. -/
def handleEvents (insertFail : Bool) (updFail : Nat → Bool) (now : Nat)
    (events : List Event) (st : ServerState) : ServerState × HEOutcome :=
  if events.length = 0 then (st, .earlyReturn)
  else
    let raw := if insertFail then st.rawEvents else insertManyUnique st.rawEvents events
    let r := runWindows updFail now events WINDOW_SIZES st.windows st.aggDocs []
    match r.2.2 with
    | none => ({ windows := r.1, rawEvents := raw, aggDocs := r.2.1 }, .thrown)
    | some deltas => ({ windows := r.1, rawEvents := raw, aggDocs := r.2.1 }, .broadcasted deltas)

/-- Fault-free `handleEvents`: every persistence call succeeds. -/
def handleEventsOk : Nat → List Event → ServerState → ServerState × HEOutcome :=
  handleEvents false (fun _ => false)

/-- The JSON body of a `POST /ingest` request after `express.json`:
a falsy value (`null` etc.), a single event object, or an array. -/
inductive Body where
  | falsy
  | obj (e : Event)
  | arr (l : List Event)
  deriving Repr, DecidableEq

/-- Responses the `/ingest` handler can send. -/
inductive IngestResp where
  | badRequest (error : String)
  | okAccepted (accepted : Nat)
  deriving Repr, DecidableEq

/-- The `app.post('/ingest')` handler body (lines 89–103), after `authHttp`
has admitted the caller. `!payload` and the empty array give
400 `empty payload`; per-record validation drops invalid records silently;
an all-dropped batch gives 400 `no valid events`; otherwise `handleEvents`
runs and the response is `\x7b accepted: n \x7d` for the n validated records.
A `none` response means the handler threw before responding (the awaited
`handleEvents` rejected and Express 4 does not catch async errors). -/
def ingestPost (insertFail : Bool) (updFail : Nat → Bool) (now : Nat)
    (st : ServerState) (body : Body) : ServerState × Option IngestResp × HEOutcome :=
  match (match body with
    | .falsy => none
    | .obj e => some [e]
    | .arr [] => none
    | .arr (a :: l) => some (a :: l) : Option (List Event)) with
  | none => (st, some (.badRequest "empty payload"), .earlyReturn)
  | some events =>
    let valid := events.filter validEvent
    if valid.length = 0 then (st, some (.badRequest "no valid events"), .earlyReturn)
    else
      let r := handleEvents insertFail updFail now valid st
      match r.2 with
      | .thrown => (r.1, none, .thrown)
      | .earlyReturn => (r.1, some (.okAccepted valid.length), .earlyReturn)
      | .broadcasted d => (r.1, some (.okAccepted valid.length), .broadcasted d)

/-- Fault-free `/ingest`. -/
def ingestPostOk : Nat → ServerState → Body → ServerState × Option IngestResp × HEOutcome :=
  ingestPost false (fun _ => false)

/-! ## Authentication (jsonwebtoken + authHttp / authWsFromReq) -/

/-- Abstract model of a serialized JWT as the `jsonwebtoken` library sees
it: the claims (`sub`, expiry instant in ms) plus the secret that produced
the signature. `jwt.verify(t, s)` succeeds exactly when the signature
matches `s` and the token is unexpired; the concrete HMAC is outside the
embedding. -/
structure Jwt where
  sub : String
  exp : Nat
  signedWith : String
  deriving Repr, DecidableEq

/-- `jwt.sign(\x7b sub \x7d, secret, \x7b expiresIn: '12h' \x7d)`:
expiry 12 hours (in ms) past the issue instant. -/
def jwtSign (sub : String) (secret : String) (now : Nat) : Jwt :=
  ⟨sub, now + 43200000, secret⟩

/-- `jwt.verify(token, secret)`: the decoded claims, or `none` when the
signature does not match the secret or the token is expired (the library
throws; every caller in the source converts the throw to a 401/null). -/
def jwtVerify (secret : String) (now : Nat) (t : Jwt) : Option Jwt :=
  if t.signedWith = secret ∧ now < t.exp then some t else none

/-- `const JWT_SECRET = process.env.JWT_SECRET || 'change_me'` (line 17):
JS `||` falls through on the empty string as well as on an unset
variable. -/
def resolveJwtSecret (env : Option String) : String :=
  match env with
  | none => "change_me"
  | some s => if s = "" then "change_me" else s

/-- `GET /token` (lines 82–86): sign `\x7b sub: userId or 'demo-user' \x7d`
with the resolved secret, 12-hour expiry. -/
def tokenEndpoint (secret : String) (userId : Option String) (now : Nat) : Jwt :=
  jwtSign (userId.getD "demo-user") secret now

/-- An `Authorization` header value. `bearerPrefixed` records whether the
raw string starts with `'Bearer '`; `rest` is the JWT parse of the
candidate token (the suffix after the prefix when prefixed, the whole value
otherwise), `none` when that string is not a well-formed JWT. The candidate
string is assumed non-empty: the degenerate header `'Bearer '` alone, whose
empty suffix is falsy and is treated as an absent token by both handlers,
is outside this type (use `authHeader := none`). -/
structure AuthHeader where
  bearerPrefixed : Bool
  rest : Option Jwt
  deriving Repr, DecidableEq

/-- An incoming HTTP request as `authHttp` sees it. The handler reads only
`req.headers.authorization`; `queryToken` is carried to show it is ignored
on this transport (outer `Option`: parameter present; inner: it parses as
a JWT). An absent or empty header is `none` (`req.headers.authorization
|| ''` followed by a failed prefix test behaves identically). -/
structure HttpReq where
  authHeader : Option AuthHeader
  queryToken : Option (Option Jwt)
  deriving Repr, DecidableEq

/-- `authHttp` (lines 113–124): accept only a `'Bearer '`-prefixed header;
verify its suffix; any failure is a 401 JSON error. `.inr` carries the
decoded identity attached as `req.user`. -/
def authHttp (secret : String) (now : Nat) (req : HttpReq) : IngestResp ⊕ Jwt :=
  match req.authHeader with
  | none => .inl (.badRequest "missing token")
  | some h =>
    if h.bearerPrefixed then
      match h.rest with
      | none => .inl (.badRequest "invalid token")
      | some t =>
        match jwtVerify secret now t with
        | some d => .inr d
        | none => .inl (.badRequest "invalid token")
    else .inl (.badRequest "missing token")

/-- `authWsFromReq` (lines 126–139): take the header token (prefix-stripped
when prefixed, the raw value otherwise); fall back to the `token` query
parameter of the upgrade URL; verify; every failure yields `null`. -/
def authWsFromReq (secret : String) (now : Nat) (req : HttpReq) : Option Jwt :=
  let token : Option (Option Jwt) :=
    match req.authHeader with
    | some h => some h.rest
    | none => req.queryToken
  match token with
  | none => none
  | some none => none
  | some (some t) => jwtVerify secret now t

/-- What the `wss.on('connection')` prologue (lines 142–149) does with a
session: a null identity is closed immediately with code 1008
('unauthorized'); otherwise the session stays open with an empty
subscription set. -/
inductive ConnResult where
  | closed (code : Nat)
  | accepted (user : String) (subscriptions : List String)
  deriving Repr, DecidableEq

def wsConnection (secret : String) (now : Nat) (req : HttpReq) : ConnResult :=
  match authWsFromReq secret now req with
  | none => .closed 1008
  | some d => .accepted d.sub []

/-! ## Pub/sub fan-out as a labelled transition system

The claims about frame ordering quantify over interleavings of concurrent
sessions, so this part is a small operational model. Sockets are `Nat`
ids; we track, for the single dashboard topic, the subscriber set and the
ordered list of frames delivered to each socket.

Atomicity granularity, justified from the source and Node's run-to-
completion scheduling: the `subscribe` branch of the message handler
(lines 157–162) runs `subscribe(ws, topic)`, awaits
`latestAggregatesSnapshot()` — an `async` function whose body performs no
I/O, so the await resumes within the same microtask drain and no I/O
callback (in particular no mongo completion, hence no `broadcast` from
`handleEvents`) can run in between — and then sends the snapshot. It is
therefore one atomic step. A `broadcast` (lines 193–203) is another atomic
step: it delivers the delta to each subscribed socket that is open and
under the 1 MiB buffered-amount threshold, skipping the rest. Closing a
socket removes it from the topic (lines 176–183). -/

/-- Outbound frame kinds on a subscription. -/
inductive Frame where
  | snapshot
  | delta
  deriving Repr, DecidableEq

/-- Registry + delivery state for one topic. -/
structure SysState where
  subs : List Nat
  frames : Nat → List Frame

def initSys : SysState := ⟨[], fun _ => []⟩

/-- `subscribe(ws, topic)` (lines 186–191): add to the topic set
(idempotent). -/
def subAdd (s : Nat) (l : List Nat) : List Nat :=
  if s ∈ l then l else s :: l

/-- The atomic subscribe-handler step: register the socket, then send it
the snapshot frame (lines 158–160). -/
def handleSubscribe (s : Nat) (st : SysState) : SysState :=
  { subs := subAdd s st.subs
    frames := fun x => if x = s then st.frames x ++ [Frame.snapshot] else st.frames x }

/-- The atomic broadcast step (lines 193–203): deliver the delta to every
subscribed socket the backpressure guard admits (`recv` says whether a
socket is open with buffered amount under the threshold). -/
def doBroadcast (recv : Nat → Bool) (st : SysState) : SysState :=
  { subs := st.subs
    frames := fun x => if x ∈ st.subs ∧ recv x then st.frames x ++ [Frame.delta] else st.frames x }

/-- Socket close (lines 176–183): leave every topic. -/
def doClose (s : Nat) (st : SysState) : SysState :=
  { subs := st.subs.filter (fun x => x ≠ s), frames := st.frames }

/-- One step of the system: some session subscribes, some ingestion
broadcasts a delta, or some session closes. -/
inductive SysStep : SysState → SysState → Prop where
  | subscribe (s : Nat) (st : SysState) : SysStep st (handleSubscribe s st)
  | broadcast (recv : Nat → Bool) (st : SysState) : SysStep st (doBroadcast recv st)
  | close (s : Nat) (st : SysState) : SysStep st (doClose s st)

/-- Reachability from the boot state along any interleaving. -/
def SysReachable (st : SysState) : Prop :=
  Relation.ReflTransGen SysStep initSys st

/-! ## Sample inputs used by concrete theorems -/

/-- The event of spec scenario 1, with the literal `eventId:"A"`. -/
def sampleEventA : Event := ⟨"A", 1000, "u1", "s1", "/", "view"⟩

/-- A canonically formatted UUIDv4 string. -/
def uuidSample : String := "11111111-1111-4111-8111-111111111111"

/-- Scenario 1's event with a UUIDv4 `eventId`. -/
def sampleEventU : Event := ⟨uuidSample, 1000, "u1", "s1", "/", "view"⟩

/-- An event on route `r` (valid, non-error). -/
def routeEvent (r : String) : Event := ⟨uuidSample, 0, "u1", "s1", r, "view"⟩

/-- Spec scenario 4: five events on `/a`, then three on `/b`, then four on
`/c`. -/
def sampleRouteBatch : List Event :=
  List.replicate 5 (routeEvent "/a") ++ List.replicate 3 (routeEvent "/b") ++
    List.replicate 4 (routeEvent "/c")

/-! ## Aggregator lemmas -/

/-- The three bucket inequalities plus duplicate-freeness of `uniques`. -/
def entryInv (e : Entry) : Prop :=
  e.uniques.Nodup ∧ e.uniques.length ≤ e.count ∧ e.errors ≤ e.count ∧
  (e.routes.map Prod.snd).sum = e.count

/-- Every stored bucket satisfies the invariant. -/
def windowsInv (W : Windows) : Prop :=
  ∀ w bs e, W w bs = some e → entryInv e

/-- A finite sequence of ingestion calls: receipt time and batch each. -/
def ingestSeq : List (Nat × List Event) → ServerState → ServerState
  | [], st => st
  | (t, evs) :: rest, st => ingestSeq rest (handleEventsOk t evs st).1

/-- Submit the same batch `n` times at the same receipt instant
(`handleEvents` each time, all persistence succeeding). -/
def submitN : Nat → Nat → List Event → ServerState → ServerState
  | 0, _, _, st => st
  | n + 1, now, evs, st => submitN n now evs (handleEventsOk now evs st).1

/-- Every subscribed socket has already received its snapshot, and every
socket that received anything received a snapshot first. -/
def snapshotFirst (st : SysState) : Prop :=
  (∀ s, s ∈ st.subs → st.frames s ≠ []) ∧
  (∀ s, st.frames s ≠ [] → (st.frames s).head? = some Frame.snapshot)

/-- First-occurrence count of a route key in the association list (JS
`Map.prototype.get` with a 0 default). -/
def routeLookup (r : String) : List (String × Nat) → Nat
  | [] => 0
  | (s, n) :: rest => if s = r then n else routeLookup r rest


lemma setAdd_nodup {u : String} {l : List String} (h : l.Nodup) : (setAdd u l).Nodup := by
  unfold setAdd
  split
  · exact h
  · next hnot => simpa [List.nodup_append] using ⟨h, hnot⟩

lemma setAdd_length_le (u : String) (l : List String) :
    (setAdd u l).length ≤ l.length + 1 := by
  unfold setAdd
  split
  · omega
  · simp

lemma bumpRoute_sum (r : String) (l : List (String × Nat)) :
    ((bumpRoute r l).map Prod.snd).sum = (l.map Prod.snd).sum + 1 := by
  induction l with
  | nil => simp [bumpRoute]
  | cons hd tl ih =>
      obtain ⟨s, n⟩ := hd
      by_cases hs : s = r
      · simp [bumpRoute, hs]
        omega
      · simp [bumpRoute, hs, ih]
        omega

lemma routeLookup_bumpRoute_same (r : String) (l : List (String × Nat)) :
    routeLookup r (bumpRoute r l) = routeLookup r l + 1 := by
  induction l with
  | nil => simp [bumpRoute, routeLookup]
  | cons hd tl ih =>
      obtain ⟨s, n⟩ := hd
      by_cases hs : s = r
      · simp [bumpRoute, routeLookup, hs]
      · simp [bumpRoute, routeLookup, hs, ih]

lemma routeLookup_bumpRoute_other (r r2 : String) (l : List (String × Nat)) (h : r2 ≠ r) :
    routeLookup r2 (bumpRoute r l) = routeLookup r2 l := by
  have h2 : ¬r = r2 := fun hh => h hh.symm
  induction l with
  | nil => simp [bumpRoute, routeLookup, h2]
  | cons hd tl ih =>
      obtain ⟨s, n⟩ := hd
      by_cases hs : s = r
      · subst hs
        simp [bumpRoute, routeLookup, h2]
      · simp [bumpRoute, routeLookup, hs, ih]

lemma bumpRoute_keys (r : String) (l : List (String × Nat)) :
    (bumpRoute r l).map Prod.fst =
      if r ∈ l.map Prod.fst then l.map Prod.fst else l.map Prod.fst ++ [r] := by
  induction l with
  | nil => simp [bumpRoute]
  | cons hd tl ih =>
      obtain ⟨s, n⟩ := hd
      by_cases hs : s = r
      · simp [bumpRoute, hs]
      · by_cases hmem : r ∈ tl.map Prod.fst
        · simp [bumpRoute, hs, hmem, ih, Ne.symm hs]
        · simp [bumpRoute, hs, hmem, ih, Ne.symm hs]

lemma entryInv_empty : entryInv emptyEntry := by
  simp [entryInv, emptyEntry]

lemma applyEvent_entryInv {en : Entry} (ev : Event) (h : entryInv en) :
    entryInv (applyEvent en ev) := by
  obtain ⟨hnd, hu, he, hr⟩ := h
  refine ⟨?_, ?_, ?_, ?_⟩
  · show (if ev.userId ≠ "" then setAdd ev.userId en.uniques else en.uniques).Nodup
    split
    · exact setAdd_nodup hnd
    · exact hnd
  · show (if ev.userId ≠ "" then setAdd ev.userId en.uniques else en.uniques).length ≤
      en.count + 1
    split
    · have := setAdd_length_le ev.userId en.uniques
      omega
    · omega
  · show (if ev.action = "error" then en.errors + 1 else en.errors) ≤ en.count + 1
    split <;> omega
  · show ((bumpRoute ev.route en.routes).map Prod.snd).sum = en.count + 1
    rw [bumpRoute_sum, hr]

lemma foldl_applyEvent_entryInv {en : Entry} (evs : List Event) (h : entryInv en) :
    entryInv (evs.foldl applyEvent en) := by
  induction evs generalizing en with
  | nil => exact h
  | cons hd tl ih => exact ih (applyEvent_entryInv hd h)

lemma foldl_applyEvent_count (evs : List Event) (en : Entry) :
    (evs.foldl applyEvent en).count = en.count + evs.length := by
  induction evs generalizing en with
  | nil => simp
  | cons hd tl ih =>
      simp only [List.foldl_cons, ih, applyEvent, List.length_cons]
      omega

lemma windowsInv_empty : windowsInv emptyWindows := by
  intro w bs e h
  simp [emptyWindows] at h

lemma memUpdateWindow_inv {m : BucketMap} (now : Nat) (evs : List Event) (w : Nat)
    (h : ∀ bs e, m bs = some e → entryInv e) :
    ∀ bs e, (memUpdateWindow now evs w m).1 bs = some e → entryInv e := by
  intro bs e hbs
  simp only [memUpdateWindow] at hbs
  split at hbs
  · cases hbs
    apply foldl_applyEvent_entryInv
    cases hm : m (getBucketStart now w) with
    | none => simpa [hm] using entryInv_empty
    | some e0 => simpa [hm] using h _ e0 hm
  · exact h _ _ hbs

lemma runWindows_inv (uF : Nat → Bool) (now : Nat) (evs : List Event)
    (ws : List Nat) (W : Windows) (agg : List AggDoc) (acc : List (String × SEntry))
    (h : windowsInv W) : windowsInv (runWindows uF now evs ws W agg acc).1 := by
  induction ws generalizing W agg acc with
  | nil => exact h
  | cons w rest ih =>
      simp only [runWindows]
      have h2 : windowsInv (fun w2 =>
          if w2 = w then (memUpdateWindow now evs w (W w)).1 else W w2) := by
        intro w2 bs e he
        by_cases hw : w2 = w
        · simp only [hw, if_pos] at he
          exact memUpdateWindow_inv now evs w (fun bs2 e2 => h w bs2 e2) bs e he
        · simp only [hw, if_neg, if_false] at he
          exact h w2 bs e he
      split
      · exact h2
      · exact ih _ _ _ h2

/-- Once past the empty-batch guard, the windows `handleEvents` stores are
exactly those of the per-window loop, whatever the fault flags do. -/
lemma handleEvents_windows_eq_run (iF : Bool) (uF : Nat → Bool) (now : Nat)
    (evs : List Event) (st : ServerState) (h : ¬evs.length = 0) :
    (handleEvents iF uF now evs st).1.windows =
      (runWindows uF now evs WINDOW_SIZES st.windows st.aggDocs []).1 := by
  unfold handleEvents
  rw [if_neg h]
  cases hm : (runWindows uF now evs WINDOW_SIZES st.windows st.aggDocs []).2.2 <;>
    simp [hm]

lemma handleEvents_windowsInv (iF : Bool) (uF : Nat → Bool) (now : Nat)
    (evs : List Event) (st : ServerState) (h : windowsInv st.windows) :
    windowsInv (handleEvents iF uF now evs st).1.windows := by
  by_cases hlen : evs.length = 0
  · unfold handleEvents
    rw [if_pos hlen]
    exact h
  · rw [handleEvents_windows_eq_run iF uF now evs st hlen]
    exact runWindows_inv uF now evs WINDOW_SIZES st.windows st.aggDocs [] h

lemma ingestSeq_windowsInv (calls : List (Nat × List Event)) (st : ServerState)
    (h : windowsInv st.windows) : windowsInv (ingestSeq calls st).windows := by
  induction calls generalizing st with
  | nil => exact h
  | cons c rest ih =>
      obtain ⟨t, evs⟩ := c
      exact ih _ (handleEvents_windowsInv false (fun _ => false) t evs st h)

/-! ## Stable-sort lemmas for the top-routes serialization -/

lemma mem_insertByCount {a x : String × Nat} {l : List (String × Nat)} :
    a ∈ insertByCount x l ↔ a = x ∨ a ∈ l := by
  induction l with
  | nil => simp [insertByCount]
  | cons y ys ih =>
      unfold insertByCount
      split
      · simp [or_comm, or_left_comm]
      · simp [ih]
        tauto

lemma pairwise_insertByCount {x : String × Nat} {l : List (String × Nat)}
    (h : l.Pairwise (fun a b => b.2 ≤ a.2)) :
    (insertByCount x l).Pairwise (fun a b => b.2 ≤ a.2) := by
  induction l with
  | nil => simp [insertByCount]
  | cons y ys ih =>
      rw [List.pairwise_cons] at h
      obtain ⟨hy, hys⟩ := h
      unfold insertByCount
      split
      · next hle =>
          refine List.Pairwise.cons ?_ (List.Pairwise.cons hy hys)
          intro z hz
          rcases List.mem_cons.mp hz with rfl | hz2
          · exact hle
          · exact le_trans (hy z hz2) hle
      · next hgt =>
          refine List.Pairwise.cons ?_ (ih hys)
          intro z hz
          rcases mem_insertByCount.mp hz with rfl | hz2
          · omega
          · exact hy z hz2

lemma pairwise_sortRoutesDesc (l : List (String × Nat)) :
    (sortRoutesDesc l).Pairwise (fun a b => b.2 ≤ a.2) := by
  induction l with
  | nil => simp [sortRoutesDesc]
  | cons x xs ih => exact pairwise_insertByCount ih

lemma filter_insertByCount (x : String × Nat) (l : List (String × Nat)) (c : Nat) :
    (insertByCount x l).filter (fun p => p.2 = c) =
      if x.2 = c then x :: l.filter (fun p => p.2 = c)
      else l.filter (fun p => p.2 = c) := by
  induction l with
  | nil => by_cases hx : x.2 = c <;> simp [insertByCount, hx]
  | cons y ys ih =>
      unfold insertByCount
      split
      · next hle => by_cases hx : x.2 = c <;> simp [List.filter_cons, hx]
      · next hgt =>
          by_cases hx : x.2 = c
          · have hy : ¬y.2 = c := by omega
            simp [List.filter_cons, hx, hy, ih]
          · simp [List.filter_cons, hx, ih]

/-- Stability of the serialization sort: elements of any fixed count keep
their relative order from the route map (first-seen order). -/
lemma filter_sortRoutesDesc (l : List (String × Nat)) (c : Nat) :
    (sortRoutesDesc l).filter (fun p => p.2 = c) = l.filter (fun p => p.2 = c) := by
  induction l with
  | nil => rfl
  | cons x xs ih =>
      show (insertByCount x (sortRoutesDesc xs)).filter _ = _
      rw [filter_insertByCount]
      by_cases hx : x.2 = c
      · simp [List.filter_cons, hx, ih]
      · simp [List.filter_cons, hx, ih]

/-! ## Characterization of the fault-free per-window update -/

/-- Full description of the windows after a fault-free `handleEvents`: only
the three receipt-time buckets change, each to the fold of the batch over
its previous (or fresh) entry. -/
lemma handleEventsOk_windows (now : Nat) (evs : List Event) (st : ServerState)
    (h : ¬evs.length = 0) (w k : Nat) :
    (handleEventsOk now evs st).1.windows w k =
      if (w = 1 ∨ w = 5 ∨ w = 60) ∧ k = getBucketStart now w
      then some (evs.foldl applyEvent
        ((st.windows w (getBucketStart now w)).getD emptyEntry))
      else st.windows w k := by
  unfold handleEventsOk
  rw [handleEvents_windows_eq_run _ _ _ _ _ h]
  simp only [WINDOW_SIZES, runWindows, memUpdateWindow, Bool.false_eq_true, if_false]
  by_cases h1 : w = 1
  · subst h1
    by_cases hk : k = getBucketStart now 1 <;> simp [hk]
  · by_cases h5 : w = 5
    · subst h5
      by_cases hk : k = getBucketStart now 5 <;> simp [hk]
    · by_cases h60 : w = 60
      · subst h60
        by_cases hk : k = getBucketStart now 60 <;> simp [hk]
      · simp [h1, h5, h60]

/-! ## Idempotent raw insert -/

lemma handleEvents_rawEvents (iF : Bool) (uF : Nat → Bool) (now : Nat)
    (evs : List Event) (st : ServerState) (h : ¬evs.length = 0) :
    (handleEvents iF uF now evs st).1.rawEvents =
      if iF then st.rawEvents else insertManyUnique st.rawEvents evs := by
  unfold handleEvents
  rw [if_neg h]
  cases hm : (runWindows uF now evs WINDOW_SIZES st.windows st.aggDocs []).2.2 <;>
    simp [hm]

/-- Document count for a fixed `eventId` after an unordered insert under
the unique index: an id already present keeps its count; an id absent from
the collection ends at one when the batch carries it, zero otherwise. -/
lemma countP_insertManyUnique (col evs : List Event) (id : String) :
    (insertManyUnique col evs).countP (fun d => d.eventId = id) =
      if col.any (fun d => d.eventId = id) then
        col.countP (fun d => d.eventId = id)
      else if evs.any (fun e => e.eventId = id) then 1 else 0 := by
  induction evs generalizing col with
  | nil =>
      simp only [insertManyUnique, List.foldl_nil, List.any_nil,
        Bool.false_eq_true, if_false]
      split
      · rfl
      · next hany =>
          rw [List.countP_eq_zero]
          intro d hd
          rw [Bool.not_eq_true, List.any_eq_false] at hany
          simpa using hany d hd
  | cons e evs ih =>
      have hstep : insertManyUnique col (e :: evs) =
          insertManyUnique (if col.any (fun d => d.eventId = e.eventId) then col
            else col ++ [e]) evs := rfl
      rw [hstep, ih]
      by_cases hcol : col.any (fun d => d.eventId = id) = true
      · -- the id is already persisted: nothing about it changes
        by_cases hdup : col.any (fun d => d.eventId = e.eventId) = true
        · simp [hdup, hcol]
        · -- e is new; if it carried the id, the id would be a duplicate
          have he : ¬e.eventId = id := by
            intro hh
            rw [List.any_eq_true] at hcol
            obtain ⟨d, hd, hdid⟩ := hcol
            simp only [decide_eq_true_eq] at hdid
            exact hdup (List.any_eq_true.mpr ⟨d, hd, by simp [hdid, hh]⟩)
          simp [hdup, hcol, List.any_append, List.countP_append, he,
            List.countP_cons, List.any_cons]
      · -- the id is not yet persisted
        rw [Bool.not_eq_true] at hcol
        have hcnt : col.countP (fun d => d.eventId = id) = 0 := by
          rw [List.countP_eq_zero]
          intro d hd
          rw [List.any_eq_false] at hcol
          simpa using hcol d hd
        by_cases he : e.eventId = id
        · -- e carries the id and is inserted: count becomes one and stays
          have hdup : col.any (fun d => d.eventId = e.eventId) = false := by
            rw [List.any_eq_false]
            intro d hd
            rw [List.any_eq_false] at hcol
            simpa [he] using hcol d hd
          simp [hdup, List.any_append, List.countP_append, hcol, he, hcnt,
            List.countP_cons, List.any_cons]
        · -- e does not carry the id: the id's fate rests with evs
          by_cases hdup : col.any (fun d => d.eventId = e.eventId) = true
          · simp [hdup, hcol, he, List.any_cons]
          · simp only [Bool.not_eq_true] at hdup
            simp [hdup, List.any_append, List.countP_append, hcol, he, hcnt,
              List.countP_cons, List.any_cons]

lemma submitN_raw_stable (n now : Nat) (evs : List Event) (id : String)
    (st : ServerState) (hevs : ¬evs.length = 0)
    (hany : st.rawEvents.any (fun d => d.eventId = id) = true)
    (hcnt : st.rawEvents.countP (fun d => d.eventId = id) = 1) :
    (submitN n now evs st).rawEvents.countP (fun d => d.eventId = id) = 1 := by
  induction n generalizing st with
  | zero => exact hcnt
  | succ m ih =>
      have hraw : (handleEventsOk now evs st).1.rawEvents =
          insertManyUnique st.rawEvents evs :=
        handleEvents_rawEvents false (fun _ => false) now evs st hevs
      have hcnt2 : (insertManyUnique st.rawEvents evs).countP
          (fun d => d.eventId = id) = 1 := by
        rw [countP_insertManyUnique, if_pos hany, hcnt]
      have hany2 : (insertManyUnique st.rawEvents evs).any
          (fun d => d.eventId = id) = true := by
        rw [List.any_eq_true]
        have hpos : 0 < (insertManyUnique st.rawEvents evs).countP
            (fun d => d.eventId = id) := by omega
        rw [List.countP_pos_iff] at hpos
        obtain ⟨d, hd, hp⟩ := hpos
        exact ⟨d, hd, hp⟩
      exact ih _ (by rw [hraw]; exact hany2) (by rw [hraw]; exact hcnt2)

lemma submitN_bucket_count (n now : Nat) (evs : List Event) (st : ServerState)
    (w : Nat) (hw : w = 1 ∨ w = 5 ∨ w = 60) (hevs : ¬evs.length = 0) :
    (((submitN n now evs st).windows w (getBucketStart now w)).getD emptyEntry).count =
      ((st.windows w (getBucketStart now w)).getD emptyEntry).count + n * evs.length := by
  induction n generalizing st with
  | zero => simp [submitN]
  | succ m ih =>
      show (((submitN m now evs (handleEventsOk now evs st).1).windows w
        (getBucketStart now w)).getD emptyEntry).count = _
      rw [ih ((handleEventsOk now evs st).1)]
      rw [handleEventsOk_windows now evs st hevs w (getBucketStart now w),
        if_pos ⟨hw, rfl⟩]
      simp only [Option.getD_some]
      rw [foldl_applyEvent_count]
      ring

/-! ## Outcome of the fault-free pipeline -/

lemma runWindowsOk_ne_none (now : Nat) (evs : List Event) (ws : List Nat)
    (W : Windows) (agg : List AggDoc) (acc : List (String × SEntry)) :
    (runWindows (fun _ => false) now evs ws W agg acc).2.2 ≠ none := by
  induction ws generalizing W agg acc with
  | nil => simp [runWindows]
  | cons w rest ih =>
      simp only [runWindows, Bool.false_eq_true, if_false]
      exact ih _ _ _

/-- If the `updateOne` of any window in the loop's list rejects, the loop
aborts before completing and its deltas never reach the broadcast. -/
lemma runWindows_none_of_fail (uF : Nat → Bool) (now : Nat) (evs : List Event)
    (ws : List Nat) (W : Windows) (agg : List AggDoc) (acc : List (String × SEntry))
    (w : Nat) (hw : w ∈ ws) (hu : uF w = true) :
    (runWindows uF now evs ws W agg acc).2.2 = none := by
  induction ws generalizing W agg acc with
  | nil => simp at hw
  | cons a rest ih =>
      simp only [runWindows]
      by_cases ha : uF a = true
      · simp [ha]
      · rcases List.mem_cons.mp hw with rfl | hmem
        · exact absurd hu ha
        · simp only [ha, Bool.false_eq_true, if_false]
          exact ih _ _ _ hmem

/-- A nonempty ingestion whose fault pattern fails the aggregate upsert of
any one of the three windows ends in a propagated exception, never in a
broadcast. -/
lemma handleEvents_thrown_of_fail (iF : Bool) (uF : Nat → Bool) (now : Nat)
    (evs : List Event) (st : ServerState) (hevs : ¬evs.length = 0)
    (w : Nat) (hw : w ∈ WINDOW_SIZES) (hu : uF w = true) :
    (handleEvents iF uF now evs st).2 = .thrown := by
  unfold handleEvents
  rw [if_neg hevs]
  have hnone := runWindows_none_of_fail uF now evs WINDOW_SIZES st.windows
    st.aggDocs [] w hw hu
  simp [hnone]

/-- A fault-free nonempty ingestion always ends in a broadcast. -/
lemma handleEventsOk_broadcasts (now : Nat) (evs : List Event) (st : ServerState)
    (h : ¬evs.length = 0) :
    ∃ d, (handleEventsOk now evs st).2 = .broadcasted d := by
  unfold handleEventsOk handleEvents
  rw [if_neg h]
  cases hm : (runWindows (fun _ => false) now evs WINDOW_SIZES st.windows st.aggDocs []).2.2 with
  | none => exact absurd hm (runWindowsOk_ne_none now evs WINDOW_SIZES st.windows st.aggDocs [])
  | some d => exact ⟨d, by simp [hm]⟩

/-- The response and broadcast outcome of `handleEvents` do not depend on
whether the raw-event `insertMany` failed: its rejection is caught. -/
lemma handleEvents_snd_insert_indep (iF : Bool) (uF : Nat → Bool) (now : Nat)
    (evs : List Event) (st : ServerState) :
    (handleEvents iF uF now evs st).2 = (handleEvents false uF now evs st).2 := by
  unfold handleEvents
  split
  · rfl
  · cases hm : (runWindows uF now evs WINDOW_SIZES st.windows st.aggDocs []).2.2 <;>
      simp [hm]

lemma ingestPost_snd_insert_indep (iF : Bool) (uF : Nat → Bool) (now : Nat)
    (st : ServerState) (body : Body) :
    (ingestPost iF uF now st body).2 = (ingestPost false uF now st body).2 := by
  cases body with
  | falsy => rfl
  | obj e =>
      by_cases hv : ([e].filter validEvent).length = 0
      · simp [ingestPost, hv]
      · have hind := handleEvents_snd_insert_indep iF uF now ([e].filter validEvent) st
        cases hm : (handleEvents false uF now ([e].filter validEvent) st).2 with
        | earlyReturn => simp [ingestPost, hv, hind, hm]
        | thrown => simp [ingestPost, hv, hind, hm]
        | broadcasted d => simp [ingestPost, hv, hind, hm]
  | arr l =>
      cases l with
      | nil => rfl
      | cons a l2 =>
          by_cases hv : ((a :: l2).filter validEvent).length = 0
          · simp [ingestPost, hv]
          · have hind := handleEvents_snd_insert_indep iF uF now
              ((a :: l2).filter validEvent) st
            cases hm : (handleEvents false uF now ((a :: l2).filter validEvent) st).2 with
            | earlyReturn => simp [ingestPost, hv, hind, hm]
            | thrown => simp [ingestPost, hv, hind, hm]
            | broadcasted d => simp [ingestPost, hv, hind, hm]

/-! ## Snapshot-before-delta invariant -/

lemma snapshotFirst_init : snapshotFirst initSys := by
  constructor
  · intro s hs
    simp [initSys] at hs
  · intro s hs
    simp [initSys] at hs

lemma head_append_singleton {l : List Frame} {a : Frame} (h : l ≠ []) :
    (l ++ [a]).head? = l.head? := by
  cases l with
  | nil => exact absurd rfl h
  | cons x xs => rfl

lemma snapshotFirst_step {a b : SysState} (hs : SysStep a b) (h : snapshotFirst a) :
    snapshotFirst b := by
  obtain ⟨h1, h2⟩ := h
  cases hs with
  | subscribe s stx =>
      constructor
      · intro x hx
        by_cases hxs : x = s
        · subst hxs
          show (if x = x then a.frames x ++ [Frame.snapshot] else a.frames x) ≠ []
          simp
        · show (if x = s then a.frames x ++ [Frame.snapshot] else a.frames x) ≠ []
          rw [if_neg hxs]
          apply h1
          have : x ∈ subAdd s a.subs := hx
          unfold subAdd at this
          split at this
          · exact this
          · rcases List.mem_cons.mp this with h' | h'
            · exact absurd h' hxs
            · exact h'
      · intro x hx
        by_cases hxs : x = s
        · subst hxs
          show (if x = x then a.frames x ++ [Frame.snapshot] else a.frames x).head? =
            some Frame.snapshot
          rw [if_pos rfl]
          by_cases hne : a.frames x = []
          · rw [hne]
            rfl
          · rw [head_append_singleton hne]
            exact h2 x hne
        · show (if x = s then a.frames x ++ [Frame.snapshot] else a.frames x).head? =
            some Frame.snapshot
          rw [if_neg hxs]
          apply h2
          have hx2 : (if x = s then a.frames x ++ [Frame.snapshot] else a.frames x) ≠ [] :=
            hx
          rwa [if_neg hxs] at hx2
  | broadcast recv stx =>
      constructor
      · intro x hx
        show (if x ∈ a.subs ∧ recv x then a.frames x ++ [Frame.delta] else a.frames x) ≠ []
        split
        · simp
        · exact h1 x hx
      · intro x hx
        show (if x ∈ a.subs ∧ recv x then a.frames x ++ [Frame.delta] else a.frames x).head? =
          some Frame.snapshot
        split
        · next hmem =>
            have hne : a.frames x ≠ [] := h1 x hmem.1
            rw [head_append_singleton hne]
            exact h2 x hne
        · apply h2
          have hx2 : (if x ∈ a.subs ∧ recv x then a.frames x ++ [Frame.delta]
            else a.frames x) ≠ [] := hx
          split at hx2
          · next hmem => exact h1 x hmem.1
          · exact hx2
  | close s stx =>
      constructor
      · intro x hx
        exact h1 x (List.mem_of_mem_filter hx)
      · exact h2

lemma snapshotFirst_reachable {st : SysState} (h : SysReachable st) : snapshotFirst st := by
  induction h with
  | refl => exact snapshotFirst_init
  | tail _ hstep ih => exact snapshotFirst_step hstep ih


/-- `applyEvent` never reads an event's `ts`, so rewriting every `ts`
leaves the fold unchanged. -/
lemma foldl_applyEvent_map_ts (f : Int → Int) (evs : List Event) (en : Entry) :
    (evs.map fun e2 => ({ e2 with ts := f e2.ts } : Event)).foldl applyEvent en =
      evs.foldl applyEvent en := by
  induction evs generalizing en with
  | nil => rfl
  | cons a l ih =>
      rw [List.map_cons, List.foldl_cons, List.foldl_cons]
      exact ih _

/-! ## Claims -/

/-- C1: the spec's single-event scenario posits that the batch
`[⟨eventId:"A", ts:1000, userId:"u1", sessionId:"s1", route:"/",
action:"view"⟩]` ingested at receipt time 1700000000000 is accepted with
`accepted = 1`, and that any opaque non-empty `eventId` passes validation.
It does not: `eventSchema` requires a UUIDv4 `eventId`, so `"A"` fails
validation, the whole batch is filtered out, and the response is
400 `no valid events` with no broadcast. -/
theorem C1_counterexample :
    validEvent sampleEventA = false ∧
    (ingestPostOk 1700000000000 initialState (Body.arr [sampleEventA])).2 =
      (some (.badRequest "no valid events"), .earlyReturn) := by decide

/-- C1 (amended): with a UUIDv4 `eventId` the scenario holds exactly as
stated: the response is `accepted = 1` and the broadcast delta for each
window key `1s`, `5s`, `60s` has `count = 1`, `uniques = 1`,
`routes = [["/", 1]]`, `errors = 0`. -/
theorem C1_amended_single_event_flow :
    validEvent sampleEventU = true ∧
    (ingestPostOk 1700000000000 initialState (Body.arr [sampleEventU])).2 =
      (some (.okAccepted 1),
        .broadcasted [("1s", ⟨1, 1, [("/", 1)], 0⟩), ("5s", ⟨1, 1, [("/", 1)], 0⟩),
          ("60s", ⟨1, 1, [("/", 1)], 0⟩)]) := by decide

/-- C2: the claim says every persistence failure during ingestion is
swallowed, the response staying `accepted` and the broadcast still going
out. False: the per-window `aggCol.updateOne` is awaited outside any
`try/catch`, so when the first window's upsert rejects, the handler throws
before `broadcast` — no response is sent and no delta is broadcast. -/
theorem C2_counterexample :
    (ingestPost false (fun w => w = 1) 1700000000000 initialState
      (Body.arr [sampleEventU])).2 = (none, .thrown) := by decide

/-- C2 (amended): a failure of the raw-event `insertMany` alone is
swallowed — the response and broadcast of any request are exactly those of
a fault-free run (in particular `accepted = n` and a broadcast after the
in-memory update) — but a failing aggregate `updateOne` of ANY window
(1s, 5s or 60s) propagates: for every array body with a non-empty
validated subset and every accepted single-object body, no response is
sent and no broadcast is emitted. -/
theorem C2_amended_persistence_failures (iF : Bool) (uF : Nat → Bool) (now : Nat)
    (st : ServerState) (w : Nat) (hw : w ∈ WINDOW_SIZES) (hu : uF w = true) :
    (∀ body, (ingestPost iF (fun _ => false) now st body).2 =
      (ingestPostOk now st body).2) ∧
    (∀ evs, ¬(evs.filter validEvent).length = 0 →
      (ingestPost iF uF now st (Body.arr evs)).2 = (none, .thrown)) ∧
    (∀ e, validEvent e = true →
      (ingestPost iF uF now st (Body.obj e)).2 = (none, .thrown)) := by
  refine ⟨?_, ?_, ?_⟩
  · intro body
    exact ingestPost_snd_insert_indep iF (fun _ => false) now st body
  · intro evs hfil
    cases evs with
    | nil => simp at hfil
    | cons a l =>
        have hthr := handleEvents_thrown_of_fail iF uF now
          ((a :: l).filter validEvent) st hfil w hw hu
        simp [ingestPost, hfil, hthr]
  · intro e hv
    have hfil : ¬([e].filter validEvent).length = 0 := by simp [hv]
    have hthr := handleEvents_thrown_of_fail iF uF now ([e].filter validEvent) st
      hfil w hw hu
    have hfeq : List.filter validEvent [e] = [e] := by simp [hv]
    rw [hfeq] at hthr
    simp [ingestPost, hv, hthr]

theorem C2_amended_persistence_failures_witness :
    (ingestPost true (fun _ => false) 1700000000000 initialState
        (Body.arr [sampleEventU])).2 =
      (ingestPostOk 1700000000000 initialState (Body.arr [sampleEventU])).2 ∧
    (ingestPost true (fun w2 => w2 = 60) 1700000000000 initialState
        (Body.arr [sampleEventU])).2 = (none, .thrown) ∧
    (ingestPost true (fun w2 => w2 = 60) 1700000000000 initialState
        (Body.obj sampleEventU)).2 = (none, .thrown) := by
  have h := C2_amended_persistence_failures true (fun w2 => w2 = 60) 1700000000000
    initialState 60 (by decide) (by decide)
  exact ⟨h.1 (Body.arr [sampleEventU]), h.2.1 [sampleEventU] (by decide),
    h.2.2 sampleEventU (by decide)⟩

/-- C3: the claim says both transports resolve the credential as
prefixed-header, then non-prefixed header, then query token. False for the
request transport: `authHttp` accepts only a `'Bearer '`-prefixed header.
Here a valid token sent as a non-prefixed `Authorization` value
authenticates the streaming handshake but gets 401 `missing token` from
the request transport. -/
theorem C3_counterexample :
    authHttp "change_me" 0
        ⟨some ⟨false, some ⟨"u1", 1000, "change_me"⟩⟩, none⟩ =
      .inl (.badRequest "missing token") ∧
    authWsFromReq "change_me" 0
        ⟨some ⟨false, some ⟨"u1", 1000, "change_me"⟩⟩, none⟩ =
      some ⟨"u1", 1000, "change_me"⟩ := by decide

/-- C3 (amended): the streaming transport resolves the credential in the
claimed order — prefixed header, else the raw header value, else the
`token` query parameter (consulted only when the header is absent) — while
the request transport accepts only the `'Bearer '`-prefixed header,
answering 401 to a missing or non-prefixed header regardless of any query
parameter. On either transport an absent, malformed, expired or
wrong-secret credential yields a null identity: 401 JSON on the request
transport, an immediate close with code 1008 and an empty subscription set
on the streaming transport. -/
theorem C3_amended_auth_resolution (secret : String) (now : Nat) :
    (∀ h q q2, authWsFromReq secret now ⟨some h, q⟩ =
      authWsFromReq secret now ⟨some h, q2⟩) ∧
    (∀ t q, authWsFromReq secret now ⟨some ⟨true, some t⟩, q⟩ =
      jwtVerify secret now t) ∧
    (∀ t q, authWsFromReq secret now ⟨some ⟨false, some t⟩, q⟩ =
      jwtVerify secret now t) ∧
    (∀ t, authWsFromReq secret now ⟨none, some (some t)⟩ = jwtVerify secret now t) ∧
    (authWsFromReq secret now ⟨none, none⟩ = none) ∧
    (∀ q, authHttp secret now ⟨none, q⟩ = .inl (.badRequest "missing token")) ∧
    (∀ r q, authHttp secret now ⟨some ⟨false, r⟩, q⟩ =
      .inl (.badRequest "missing token")) ∧
    (∀ t q, jwtVerify secret now t = some t →
      authHttp secret now ⟨some ⟨true, some t⟩, q⟩ = .inr t) ∧
    (∀ q, authHttp secret now ⟨some ⟨true, none⟩, q⟩ =
      .inl (.badRequest "invalid token")) ∧
    (∀ t q, jwtVerify secret now t = none →
      authHttp secret now ⟨some ⟨true, some t⟩, q⟩ = .inl (.badRequest "invalid token")) ∧
    (∀ req, authWsFromReq secret now req = none →
      wsConnection secret now req = .closed 1008) ∧
    (∀ t, ¬now < t.exp → jwtVerify secret now t = none) ∧
    (∀ t, ¬t.signedWith = secret → jwtVerify secret now t = none) := by
  refine ⟨?_, ?_, ?_, ?_, rfl, ?_, ?_, ?_, ?_, ?_, ?_, ?_, ?_⟩
  · intro h q q2
    rfl
  · intro t q
    rfl
  · intro t q
    rfl
  · intro t
    rfl
  · intro q
    rfl
  · intro r q
    rfl
  · intro t q hv
    simp [authHttp, hv]
  · intro q
    rfl
  · intro t q hv
    simp [authHttp, hv]
  · intro req hnull
    simp [wsConnection, hnull]
  · intro t hexp
    simp [jwtVerify, hexp]
  · intro t hsig
    simp [jwtVerify, hsig]

theorem C3_amended_auth_resolution_witness :
    authHttp "change_me" 0 ⟨some ⟨true, some ⟨"u1", 1000, "change_me"⟩⟩, none⟩ =
      .inr ⟨"u1", 1000, "change_me"⟩ ∧
    wsConnection "change_me" 2000 ⟨none, some (some ⟨"u1", 1000, "change_me"⟩)⟩ =
      .closed 1008 := by
  have h := C3_amended_auth_resolution "change_me" 0
  have h2 := C3_amended_auth_resolution "change_me" 2000
  refine ⟨h.2.2.2.2.2.2.2.1 ⟨"u1", 1000, "change_me"⟩ none (by decide), ?_⟩
  exact h2.2.2.2.2.2.2.2.2.2.2.1 ⟨none, some (some ⟨"u1", 1000, "change_me"⟩)⟩ (by decide)

/-- C4: on any reachable interleaving of subscribes, ingestion broadcasts
and closes, a session that has received any frame received an
`agg_snapshot` first; since broadcasts only ever append `agg_delta`
frames, no delta reaches a session before the snapshot sent synchronously
by its subscribe. -/
theorem C4_snapshot_before_delta (st : SysState) (h : SysReachable st) (s : Nat)
    (hne : st.frames s ≠ []) : (st.frames s).head? = some Frame.snapshot :=
  (snapshotFirst_reachable h).2 s hne

theorem C4_snapshot_before_delta_witness :
    ((doBroadcast (fun _ => true) (handleSubscribe 0 initSys)).frames 0).head? =
      some Frame.snapshot :=
  C4_snapshot_before_delta _
    (Relation.ReflTransGen.tail
      (Relation.ReflTransGen.single (SysStep.subscribe 0 initSys))
      (SysStep.broadcast (fun _ => true) _))
    0 (by decide)

/-- C5: after any finite sequence of ingestion calls, every stored bucket
has duplicate-free `uniques` with `|uniques| ≤ count`, `errors ≤ count`
and `Σ routes = count`; per event, `count` rises by exactly 1, exactly the
event's own route tally rises by exactly 1, `errors` rises by 1 exactly on
`action = "error"`, and `uniques` gains the `userId` only when it is
non-empty. -/
theorem C5_bucket_invariants (calls : List (Nat × List Event)) :
    (∀ w bs e, (ingestSeq calls initialState).windows w bs = some e →
      e.uniques.Nodup ∧ e.uniques.length ≤ e.count ∧ e.errors ≤ e.count ∧
        (e.routes.map Prod.snd).sum = e.count) ∧
    (∀ en ev,
      (applyEvent en ev).count = en.count + 1 ∧
      routeLookup ev.route (applyEvent en ev).routes =
        routeLookup ev.route en.routes + 1 ∧
      (∀ r, r ≠ ev.route →
        routeLookup r (applyEvent en ev).routes = routeLookup r en.routes) ∧
      (ev.action = "error" → (applyEvent en ev).errors = en.errors + 1) ∧
      (¬ev.action = "error" → (applyEvent en ev).errors = en.errors) ∧
      (ev.userId = "" → (applyEvent en ev).uniques = en.uniques) ∧
      (¬ev.userId = "" → ev.userId ∈ (applyEvent en ev).uniques)) := by
  constructor
  · intro w bs e he
    exact ingestSeq_windowsInv calls initialState windowsInv_empty w bs e he
  · intro en ev
    refine ⟨rfl, routeLookup_bumpRoute_same ev.route en.routes, ?_, ?_, ?_, ?_, ?_⟩
    · intro r hr
      exact routeLookup_bumpRoute_other ev.route r en.routes hr
    · intro ha
      show (if ev.action = "error" then en.errors + 1 else en.errors) = en.errors + 1
      rw [if_pos ha]
    · intro ha
      show (if ev.action = "error" then en.errors + 1 else en.errors) = en.errors
      rw [if_neg ha]
    · intro hu
      show (if ev.userId ≠ "" then setAdd ev.userId en.uniques else en.uniques) =
        en.uniques
      rw [if_neg (by simp [hu])]
    · intro hu
      show ev.userId ∈
        (if ev.userId ≠ "" then setAdd ev.userId en.uniques else en.uniques)
      rw [if_pos hu]
      unfold setAdd
      split
      · assumption
      · simp

theorem C5_bucket_invariants_witness :
    ((["u1"] : List String).Nodup ∧ (["u1"] : List String).length ≤ 1 ∧
      (0 : Nat) ≤ 1 ∧ (([("/", 1)] : List (String × Nat)).map Prod.snd).sum = 1) ∧
    (applyEvent emptyEntry ⟨uuidSample, 1000, "u1", "s1", "/", "error"⟩).errors =
      emptyEntry.errors + 1 := by
  constructor
  · exact (C5_bucket_invariants [(1000, [sampleEventU])]).1 1 1000
      ⟨1, ["u1"], [("/", 1)], 0⟩ (by decide)
  · exact (((C5_bucket_invariants []).2 emptyEntry
      ⟨uuidSample, 1000, "u1", "s1", "/", "error"⟩).2.2.2.1) rfl

/-- C6: submitting a batch carrying an `eventId` (any number of times,
N ≥ 1 submissions in all) leaves exactly one persisted document with that
id — the unique-index insert is idempotent — while the in-memory bucket
count grows by the full `N · |batch|`, double-counting duplicates. -/
theorem C6_idempotent_persistence_memory_double_count (N now : Nat)
    (evs : List Event) (id : String) (st : ServerState) (hN : 1 ≤ N)
    (hid : evs.any (fun e => e.eventId = id) = true)
    (hcol : st.rawEvents.any (fun d => d.eventId = id) = false) :
    (submitN N now evs st).rawEvents.countP (fun d => d.eventId = id) = 1 ∧
    (∀ w, w = 1 ∨ w = 5 ∨ w = 60 →
      (((submitN N now evs st).windows w (getBucketStart now w)).getD
        emptyEntry).count =
      ((st.windows w (getBucketStart now w)).getD emptyEntry).count +
        N * evs.length) := by
  have hevs : ¬evs.length = 0 := by
    intro hz
    rw [List.length_eq_zero] at hz
    subst hz
    simp at hid
  constructor
  · cases N with
    | zero => omega
    | succ m =>
        show (submitN m now evs (handleEventsOk now evs st).1).rawEvents.countP _ = 1
        have hraw : (handleEventsOk now evs st).1.rawEvents =
            insertManyUnique st.rawEvents evs := by
          have hr := handleEvents_rawEvents false (fun _ => false) now evs st hevs
          simpa using hr
        have hcnt1 : (handleEventsOk now evs st).1.rawEvents.countP
            (fun d => d.eventId = id) = 1 := by
          rw [hraw, countP_insertManyUnique]
          simp [hcol, hid]
        have hany1 : (handleEventsOk now evs st).1.rawEvents.any
            (fun d => d.eventId = id) = true := by
          rw [List.any_eq_true]
          have hpos : 0 < (handleEventsOk now evs st).1.rawEvents.countP
              (fun d => d.eventId = id) := by omega
          rw [List.countP_pos_iff] at hpos
          obtain ⟨d2, hd2, hp2⟩ := hpos
          exact ⟨d2, hd2, hp2⟩
        exact submitN_raw_stable m now evs id _ hevs hany1 hcnt1
  · intro w hw
    exact submitN_bucket_count N now evs st w hw hevs

theorem C6_idempotent_persistence_memory_double_count_witness :
    (submitN 2 1000 [sampleEventU] initialState).rawEvents.countP
      (fun d => d.eventId = uuidSample) = 1 ∧
    (((submitN 2 1000 [sampleEventU] initialState).windows 1
        (getBucketStart 1000 1)).getD emptyEntry).count =
      ((initialState.windows 1 (getBucketStart 1000 1)).getD emptyEntry).count +
        2 * 1 := by
  have h := C6_idempotent_persistence_memory_double_count 2 1000 [sampleEventU]
    uuidSample initialState (by decide) (by decide) (by decide)
  exact ⟨h.1, h.2 1 (Or.inl rfl)⟩

/-- C7: for every bucket the serialized routes list has at most 10
entries, is ordered by count descending, ties keep the order of the
underlying route map — whose key order is first-insertion order, as the
fourth conjunct shows — and the spec's five-three-four example serializes to
`[["/a",5],["/c",4],["/b",3]]`. -/
theorem C7_top_routes_serialization (e : Entry) (en : Entry) (ev : Event) :
    (serializeEntry e).routes.length ≤ 10 ∧
    (serializeEntry e).routes.Pairwise (fun a b => b.2 ≤ a.2) ∧
    (∀ c, (sortRoutesDesc e.routes).filter (fun p => p.2 = c) =
      e.routes.filter (fun p => p.2 = c)) ∧
    ((applyEvent en ev).routes.map Prod.fst =
      if ev.route ∈ en.routes.map Prod.fst then en.routes.map Prod.fst
      else en.routes.map Prod.fst ++ [ev.route]) ∧
    (serializeEntry (sampleRouteBatch.foldl applyEvent emptyEntry)).routes =
      [("/a", 5), ("/c", 4), ("/b", 3)] := by
  refine ⟨?_, ?_, ?_, ?_, by decide⟩
  · show ((sortRoutesDesc e.routes).take 10).length ≤ 10
    rw [List.length_take]
    omega
  · show ((sortRoutesDesc e.routes).take 10).Pairwise _
    exact List.Pairwise.sublist (List.take_sublist 10 _) (pairwise_sortRoutesDesc e.routes)
  · intro c
    exact filter_sortRoutesDesc e.routes c
  · exact bumpRoute_keys ev.route en.routes

/-- C8: the `/ingest` response is 400 `empty payload` for a falsy body or
the empty array, 400 `no valid events` when validation filters out every
record of a non-empty payload, and `accepted = n` for the n records that
passed validation, invalid records of a mixed batch being dropped
silently. -/
theorem C8_ingest_response_contract (now : Nat) (st : ServerState) :
    ((ingestPostOk now st Body.falsy).2.1 = some (.badRequest "empty payload")) ∧
    ((ingestPostOk now st (Body.arr [])).2.1 = some (.badRequest "empty payload")) ∧
    (∀ a l, ((a :: l).filter validEvent).length = 0 →
      (ingestPostOk now st (Body.arr (a :: l))).2.1 =
        some (.badRequest "no valid events")) ∧
    (∀ a l, ¬((a :: l).filter validEvent).length = 0 →
      (ingestPostOk now st (Body.arr (a :: l))).2.1 =
        some (.okAccepted ((a :: l).filter validEvent).length)) ∧
    (∀ e2, validEvent e2 = false →
      (ingestPostOk now st (Body.obj e2)).2.1 = some (.badRequest "no valid events")) ∧
    (∀ e2, validEvent e2 = true →
      (ingestPostOk now st (Body.obj e2)).2.1 = some (.okAccepted 1)) := by
  refine ⟨rfl, rfl, ?_, ?_, ?_, ?_⟩
  · intro a l hfil
    simp [ingestPostOk, ingestPost, hfil]
  · intro a l hfil
    obtain ⟨d, hd⟩ := handleEventsOk_broadcasts now ((a :: l).filter validEvent) st hfil
    simp only [handleEventsOk] at hd
    simp [ingestPostOk, ingestPost, hfil, hd]
  · intro e2 hv
    simp [ingestPostOk, ingestPost, hv]
  · intro e2 hv
    have hfeq : List.filter validEvent [e2] = [e2] := by simp [hv]
    have hfil : ¬([e2].filter validEvent).length = 0 := by simp [hv]
    obtain ⟨d, hd⟩ := handleEventsOk_broadcasts now ([e2].filter validEvent) st hfil
    simp only [handleEventsOk, hfeq] at hd
    simp [ingestPostOk, ingestPost, hv, hd]

theorem C8_ingest_response_contract_witness :
    (ingestPostOk 1000 initialState (Body.arr [sampleEventA])).2.1 =
      some (.badRequest "no valid events") ∧
    (ingestPostOk 1000 initialState (Body.arr [sampleEventU])).2.1 =
      some (.okAccepted 1) := by
  have h := C8_ingest_response_contract 1000 initialState
  refine ⟨h.2.2.1 sampleEventA [] (by decide), ?_⟩
  exact (h.2.2.2.1 sampleEventU [] (by decide)).trans (by decide)

/-- C9: bucket assignment uses only the receipt wall-clock: for each
window the sole updated bucket key is `now / (w·1000) · (w·1000)` (floor
division), every other key is untouched, and replacing every event's
producer-supplied `ts` by anything at all leaves the resulting windows
identical. -/
theorem C9_receipt_time_bucketing (now : Nat) (evs : List Event) (st : ServerState)
    (h : ¬evs.length = 0) :
    (∀ w, w = 1 ∨ w = 5 ∨ w = 60 →
      getBucketStart now w = now / (w * 1000) * (w * 1000) ∧
      (∀ k, k ≠ getBucketStart now w →
        (handleEventsOk now evs st).1.windows w k = st.windows w k) ∧
      (handleEventsOk now evs st).1.windows w (getBucketStart now w) =
        some (evs.foldl applyEvent
          ((st.windows w (getBucketStart now w)).getD emptyEntry))) ∧
    (∀ f : Int → Int,
      (handleEventsOk now (evs.map fun e2 => { e2 with ts := f e2.ts }) st).1.windows =
        (handleEventsOk now evs st).1.windows) := by
  constructor
  · intro w hw
    refine ⟨rfl, ?_, ?_⟩
    · intro k hk
      rw [handleEventsOk_windows now evs st h w k, if_neg]
      intro hcon
      exact hk hcon.2
    · rw [handleEventsOk_windows now evs st h w _, if_pos ⟨hw, rfl⟩]
  · intro f
    funext w k
    have hlen : ¬(evs.map fun e2 => ({ e2 with ts := f e2.ts } : Event)).length = 0 := by
      simpa using h
    rw [handleEventsOk_windows now _ st hlen w k,
      handleEventsOk_windows now evs st h w k]
    rw [foldl_applyEvent_map_ts f evs]

theorem C9_receipt_time_bucketing_witness :
    getBucketStart 1700000000000 60 = 1700000000000 / (60 * 1000) * (60 * 1000) ∧
    (handleEventsOk 1700000000000 [sampleEventU] initialState).1.windows 60
        (getBucketStart 1700000000000 60) =
      some ([sampleEventU].foldl applyEvent
        ((initialState.windows 60 (getBucketStart 1700000000000 60)).getD
          emptyEntry)) := by
  have h := C9_receipt_time_bucketing 1700000000000 [sampleEventU] initialState
    (by decide)
  have h60 := h.1 60 (Or.inr (Or.inr rfl))
  exact ⟨h60.1, h60.2.2⟩

/-- C10: with `JWT_SECRET` unset the resolved secret is the literal
`change_me`; tokens issued by `GET /token` are signed with it, and any
well-formed unexpired token signed with `change_me` authenticates on both
transports. -/
theorem C10_default_secret (now : Nat) (uid : Option String) (t : Jwt) :
    resolveJwtSecret none = "change_me" ∧
    (tokenEndpoint (resolveJwtSecret none) uid now).signedWith = "change_me" ∧
    (t.signedWith = "change_me" → now < t.exp →
      jwtVerify (resolveJwtSecret none) now t = some t ∧
      authHttp (resolveJwtSecret none) now ⟨some ⟨true, some t⟩, none⟩ = .inr t ∧
      wsConnection (resolveJwtSecret none) now ⟨none, some (some t)⟩ =
        .accepted t.sub []) := by
  refine ⟨rfl, rfl, ?_⟩
  intro h1 h2
  have hv : jwtVerify "change_me" now t = some t := by
    simp [jwtVerify, h1, h2]
  refine ⟨hv, ?_, ?_⟩
  · simp [authHttp, resolveJwtSecret, hv]
  · simp [wsConnection, authWsFromReq, resolveJwtSecret, hv]

theorem C10_default_secret_witness :
    jwtVerify (resolveJwtSecret none) 0 ⟨"demo-user", 43200000, "change_me"⟩ =
      some ⟨"demo-user", 43200000, "change_me"⟩ ∧
    authHttp (resolveJwtSecret none) 0
        ⟨some ⟨true, some ⟨"demo-user", 43200000, "change_me"⟩⟩, none⟩ =
      .inr ⟨"demo-user", 43200000, "change_me"⟩ := by
  have h := C10_default_secret 0 none ⟨"demo-user", 43200000, "change_me"⟩
  exact ⟨(h.2.2 rfl (by decide)).1, (h.2.2 rfl (by decide)).2.1⟩

end RTAD
